import Mathlib

set_option maxRecDepth 100000

/-!
Verification development for the nanopy-sdk ABI codec and signing pipeline.

Conventions of the shallow embedding:
* JS strings are `String` / `List Char`; hex strings carry their `0x` prefix
  explicitly where the source does.
* JS `bigint` is `Int` (or `Nat` where the source value is non-negative);
  byte sequences (`Uint8Array`) are `List Nat` with every entry `< 256`.
* Fallible code returns `Except`.
-/

/-- Value of a hex digit character, as JS `parseInt`/`BigInt` read one
(0 for characters that are not hex digits; such inputs do not arise for
the valid values considered in the theorems below). -/
def hexDigitVal (c : Char) : Nat :=
  if '0' ≤ c ∧ c ≤ '9' then c.toNat - 48
  else if 'a' ≤ c ∧ c ≤ 'f' then c.toNat - 87
  else if 'A' ≤ c ∧ c ≤ 'F' then c.toNat - 55
  else 0

/-- Fuel-driven minimal hex printer (most significant digit first). -/
def natToHexAux (fuel : Nat) (n : Nat) : List Char :=
  match fuel with
  | 0 => []
  | f + 1 => if n = 0 then [] else natToHexAux f (n / 16) ++ [Nat.digitChar (n % 16)]

/-- JS `BigInt.prototype.toString(16)` for non-negative values: minimal
lowercase hex, `"0"` for zero. -/
def natToHex (n : Nat) : List Char :=
  if n = 0 then ['0'] else natToHexAux n n

/-- JS `BigInt.prototype.toString(16)`: negative values print as a minus
sign followed by the hex digits of the absolute value. -/
def intToHex (i : Int) : List Char :=
  if i < 0 then '-' :: natToHex i.natAbs else natToHex i.toNat

/-- Hex parse, as JS `BigInt('0x' ++ l)` on a string of hex digits. -/
def hexToNat (l : List Char) : Nat :=
  l.foldl (fun a c => 16 * a + hexDigitVal c) 0

/-- JS `String.prototype.padStart(n, c)`. -/
def padStart (n : Nat) (c : Char) (l : List Char) : List Char :=
  List.replicate (n - l.length) c ++ l

/-- JS `String.prototype.padEnd(n, c)`. -/
def padEnd (n : Nat) (c : Char) (l : List Char) : List Char :=
  l ++ List.replicate (n - l.length) c

/-- Two lowercase hex digits of a byte (`b.toString(16).padStart(2,'0')`). -/
def byteToHex (b : Nat) : List Char :=
  [Nat.digitChar (b / 16 % 16), Nat.digitChar (b % 16)]

/-- Hex digits of a byte sequence, without `0x` (`bytesToHex(..).slice(2)`). -/
def bytesToHexChars (bs : List Nat) : List Char :=
  (bs.map byteToHex).flatten

/-- utils `bytesToHex`: `0x`-prefixed lowercase hex of a byte sequence. -/
def bytesToHex (bs : List Nat) : List Char :=
  '0' :: 'x' :: bytesToHexChars bs

/-- Core of utils `hexToBytes`: consume hex digits two at a time; a trailing
odd digit is dropped, as the JS loop over `floor(length / 2)` drops it. -/
def hexPairsToBytes : List Char → List Nat
  | c1 :: c2 :: rest => (16 * hexDigitVal c1 + hexDigitVal c2) :: hexPairsToBytes rest
  | _ => []

/-- Strip a leading `0x` if present (`hex.startsWith('0x') ? hex.slice(2) : hex`). -/
def strip0x (l : List Char) : List Char :=
  if l.take 2 = ['0', 'x'] then l.drop 2 else l

/-- utils `hexToBytes` on a string with optional `0x` prefix. -/
def hexToBytes (l : List Char) : List Nat :=
  hexPairsToBytes (strip0x l)

/-- UTF-8 encoding of one character (`TextEncoder`). -/
def utf8EncodeChar (c : Char) : List Nat :=
  let n := c.toNat
  if n < 0x80 then [n]
  else if n < 0x800 then [0xC0 ||| (n >>> 6), 0x80 ||| (n &&& 0x3F)]
  else if n < 0x10000 then
    [0xE0 ||| (n >>> 12), 0x80 ||| ((n >>> 6) &&& 0x3F), 0x80 ||| (n &&& 0x3F)]
  else
    [0xF0 ||| (n >>> 18), 0x80 ||| ((n >>> 12) &&& 0x3F),
     0x80 ||| ((n >>> 6) &&& 0x3F), 0x80 ||| (n &&& 0x3F)]

/-- UTF-8 encoding of a JS string (`TextEncoder.encode`). -/
def utf8Encode (s : List Char) : List Nat :=
  (s.map utf8EncodeChar).flatten

/-- Fuel-driven UTF-8 decoding of a byte sequence (`TextDecoder.decode`):
malformed sequences decode to U+FFFD replacement characters. Only ASCII
inputs occur in the theorems below. -/
def utf8DecodeAux (fuel : Nat) (bs : List Nat) : List Char :=
  match fuel with
  | 0 => []
  | f + 1 =>
    match bs with
    | [] => []
    | b :: rest =>
      if b < 0x80 then Char.ofNat b :: utf8DecodeAux f rest
      else if 0xC0 ≤ b ∧ b < 0xE0 then
        match rest with
        | b1 :: rest1 =>
          if 0x80 ≤ b1 ∧ b1 < 0xC0 then
            let cp := ((b &&& 0x1F) <<< 6) ||| (b1 &&& 0x3F)
            (if cp < 0x80 then '�' else Char.ofNat cp) :: utf8DecodeAux f rest1
          else '�' :: utf8DecodeAux f rest
        | [] => ['�']
      else if 0xE0 ≤ b ∧ b < 0xF0 then
        match rest with
        | b1 :: b2 :: rest2 =>
          if (0x80 ≤ b1 ∧ b1 < 0xC0) ∧ (0x80 ≤ b2 ∧ b2 < 0xC0) then
            let cp := ((b &&& 0x0F) <<< 12) ||| ((b1 &&& 0x3F) <<< 6) ||| (b2 &&& 0x3F)
            (if cp < 0x800 ∨ (0xD800 ≤ cp ∧ cp < 0xE000) then '�' else Char.ofNat cp) ::
              utf8DecodeAux f rest2
          else '�' :: utf8DecodeAux f rest
        | _ => ['�']
      else if 0xF0 ≤ b ∧ b < 0xF5 then
        match rest with
        | b1 :: b2 :: b3 :: rest3 =>
          if (0x80 ≤ b1 ∧ b1 < 0xC0) ∧ (0x80 ≤ b2 ∧ b2 < 0xC0) ∧ (0x80 ≤ b3 ∧ b3 < 0xC0) then
            let cp := ((b &&& 0x07) <<< 18) ||| ((b1 &&& 0x3F) <<< 12) |||
                      ((b2 &&& 0x3F) <<< 6) ||| (b3 &&& 0x3F)
            (if cp < 0x10000 ∨ 0x110000 ≤ cp then '�' else Char.ofNat cp) ::
              utf8DecodeAux f rest3
          else '�' :: utf8DecodeAux f rest
        | _ => ['�']
      else '�' :: utf8DecodeAux f rest

/-- UTF-8 decoding of a byte sequence (`TextDecoder.decode`). -/
def utf8Decode (bs : List Nat) : List Char :=
  utf8DecodeAux bs.length bs

/-! ### Keccak-256

Modelled from the spec: the repository treats Keccak-256 hashing as an
external primitive (the `js-sha3` package, a standard hash function), so it
is reproduced here from the standard: Keccak-f[1600], rate 136 bytes,
original Keccak multi-rate padding (0x01 … 0x80), 32-byte digest. -/

/-- 64-bit mask. -/
def mask64 : Nat := 18446744073709551615

/-- Rotate a 64-bit word left by `n` (`0 ≤ n < 64`). -/
def rotl64 (x n : Nat) : Nat :=
  ((x <<< n) ||| (x >>> (64 - n))) &&& mask64

/-- Keccak round constants (iota step), for the 24 rounds in order. -/
def keccakRC : List Nat :=
  [0x1,
   0x8082,
   0x800000000000808a,
   0x8000000080008000,
   0x808b,
   0x80000001,
   0x8000000080008081,
   0x8000000000008009,
   0x8a,
   0x88,
   0x80008009,
   0x8000000a,
   0x8000808b,
   0x800000000000008b,
   0x8000000000008089,
   0x8000000000008003,
   0x8000000000008002,
   0x8000000000000080,
   0x800a,
   0x800000008000000a,
   0x8000000080008081,
   0x8000000000008080,
   0x80000001,
   0x8000000080008008]

/-- Combined rho-pi step, source-lane table: output lane `j` takes input
lane `keccakSrc[j]`. -/
def keccakSrc : List Nat :=
  [0, 6, 12, 18, 24, 3, 9, 10, 16, 22, 1, 7, 13, 19, 20, 4, 5, 11, 17, 23, 2, 8, 14, 15, 21]

/-- Combined rho-pi step, rotation table: output lane `j` is rotated by
`keccakRot[j]`. -/
def keccakRot : List Nat :=
  [0, 44, 43, 21, 14, 28, 20, 3, 45, 61, 1, 6, 25, 8, 18, 27, 36, 10, 15, 56, 62, 55, 39, 41, 2]

/-- One Keccak-f round (theta, rho, pi, chi, iota) on a 25-lane state. -/
def keccakRound (A : List Nat) (rc : Nat) : List Nat :=
  let C := (List.range 5).map fun x =>
    A.getD x 0 ^^^ A.getD (x + 5) 0 ^^^ A.getD (x + 10) 0 ^^^
      A.getD (x + 15) 0 ^^^ A.getD (x + 20) 0
  let D := (List.range 5).map fun x =>
    C.getD ((x + 4) % 5) 0 ^^^ rotl64 (C.getD ((x + 1) % 5) 0) 1
  let A1 := (List.range 25).map fun i => A.getD i 0 ^^^ D.getD (i % 5) 0
  let B := (List.range 25).map fun j =>
    rotl64 (A1.getD (keccakSrc.getD j 0) 0) (keccakRot.getD j 0)
  let A2 := (List.range 25).map fun j =>
    let row := 5 * (j / 5)
    B.getD j 0 ^^^
      ((mask64 ^^^ B.getD (row + (j % 5 + 1) % 5) 0) &&& B.getD (row + (j % 5 + 2) % 5) 0)
  match A2 with
  | a0 :: rest => (a0 ^^^ rc) :: rest
  | [] => []

/-- The Keccak-f[1600] permutation: 24 rounds. -/
def keccakF (A : List Nat) : List Nat :=
  keccakRC.foldl keccakRound A

/-- Original Keccak multi-rate padding to a multiple of the 136-byte rate. -/
def keccakPad (msg : List Nat) : List Nat :=
  let padLen := 136 - msg.length % 136
  if padLen = 1 then msg ++ [0x81]
  else msg ++ [0x01] ++ List.replicate (padLen - 2) 0 ++ [0x80]

/-- A little-endian 64-bit lane from up to 8 bytes. -/
def laneOfBytes (bs : List Nat) : Nat :=
  bs.foldr (fun b a => b + 256 * a) 0

/-- Absorb one 136-byte block into the state and permute. -/
def absorbBlock (st blk : List Nat) : List Nat :=
  let lanes := (List.range 17).map fun i => laneOfBytes ((blk.drop (8 * i)).take 8)
  keccakF ((List.range 25).map fun i => st.getD i 0 ^^^ lanes.getD i 0)

/-- Fuel-driven split of a padded message into 136-byte blocks. -/
def keccakBlocks : Nat → List Nat → List (List Nat)
  | 0, _ => []
  | _, [] => []
  | f + 1, l => l.take 136 :: keccakBlocks f (l.drop 136)

/-- Keccak-256 digest (32 bytes) of a byte sequence. -/
def keccak256Bytes (msg : List Nat) : List Nat :=
  let p := keccakPad msg
  let st := (keccakBlocks p.length p).foldl absorbBlock (List.replicate 25 0)
  ((List.range 4).map fun i => (List.range 8).map fun k => (st.getD i 0 >>> (8 * k)) % 256).flatten

/-- js-sha3 `keccak256` on a byte sequence: lowercase hex digest, no `0x`. -/
def keccak256OfBytes (msg : List Nat) : List Char :=
  bytesToHexChars (keccak256Bytes msg)

/-- js-sha3 `keccak256` on a JS string: the string is UTF-8 encoded first. -/
def keccak256OfString (s : List Char) : List Char :=
  keccak256OfBytes (utf8Encode s)

example : keccak256OfString "".data =
    "c5d2460186f7233c927e7db2dcc703c0e500b653ca82273b7bfad8045d85a470".data := by decide

example : (keccak256OfString "transfer(address,uint256)".data).take 8 = "a9059cbb".data := by
  decide

/-! ### ABI parameter codec (src/contract.ts)

JS strings are modelled as `List Char`. ABI type strings, hex words and
calldata are all `List Char`; `0x` prefixes appear exactly where the source
carries them. -/

/-- JS `startsWith`. -/
def listStartsWith (p l : List Char) : Bool :=
  l.take p.length == p

/-- JS `value.replace('0x', '')`: remove the first occurrence of `0x`. -/
def replaceFirst0x : List Char → List Char
  | '0' :: 'x' :: rest => rest
  | c :: rest => c :: replaceFirst0x rest
  | [] => []

/-- JS `type.replace('int', '')`: remove the first occurrence of `int`. -/
def replaceFirstInt : List Char → List Char
  | 'i' :: 'n' :: 't' :: rest => rest
  | c :: rest => c :: replaceFirstInt rest
  | [] => []

/-- JS `parseInt` on a string: leading decimal digits, `none` for NaN. -/
def parseIntPrefix (l : List Char) : Option Nat :=
  let digits := l.takeWhile fun c => decide ('0' ≤ c ∧ c ≤ '9')
  if digits = [] then none
  else some (digits.foldl (fun a c => 10 * a + (c.toNat - 48)) 0)

/-- Append `'0'` until the length is a multiple of 64 — the closed form of
the source's `while (dataHex.length % 64 !== 0) dataHex += '0'` loop. -/
def padRightTo64 (l : List Char) : List Char :=
  l ++ List.replicate ((64 - l.length % 64) % 64) '0'

/-- A JS argument value as the encoder receives it (`value: any`):
a string, an arbitrary-precision integer, or a boolean. -/
inductive AbiValue
  | vStr (s : List Char)
  | vInt (i : Int)
  | vBool (b : Bool)
deriving DecidableEq

/-- A decoded ABI value as the decoder returns it: a string (address,
bytes32, string), a `BigInt` (uint/int), or a boolean. -/
inductive DecodedValue
  | dStr (s : List Char)
  | dInt (i : Int)
  | dBool (b : Bool)
deriving DecidableEq

/-- Encoder failures. `unsupportedType` is the thrown
`Unsupported type: ${type}` error; `badValue` models the JS `TypeError`
crash when a value of the wrong shape reaches a branch (e.g.
`undefined.toLowerCase()`), which is not that error branch. -/
inductive EncError
  | unsupportedType (ty : List Char)
  | badValue
deriving DecidableEq

/-- Decoder failures. `unsupportedType` is the thrown
`Unsupported type: ${type}` error; `badData` models a JS crash on
malformed input (NaN bit width from `parseInt`, negative shift). -/
inductive DecError
  | unsupportedType (ty : List Char)
  | badData
deriving DecidableEq

/-- JS truthiness of an argument value (`value ? '1' : '0'`). -/
def truthy : AbiValue → Bool
  | .vStr s => s ≠ []
  | .vInt i => i ≠ 0
  | .vBool b => b

/-- Bit width the int decoder derives from the type string:
`parseInt(type.replace('int', '') || '256')`. -/
def decodeIntBits (ty : List Char) : Option Nat :=
  let rest := replaceFirstInt ty
  if rest = [] then some 256 else parseIntPrefix rest

/-- `{name, type, indexed}` of an ABI parameter. -/
structure ABIParameter where
  name : List Char
  type : List Char
  indexed : Bool := false
deriving DecidableEq

/-- One ABI entry: `{type, name?, inputs?, outputs?}`. -/
structure ABIFunction where
  type : List Char
  name : Option (List Char) := none
  inputs : Option (List ABIParameter) := none
  outputs : Option (List ABIParameter) := none
deriving DecidableEq

namespace Contract

/-- `Contract.encodeParameter(type, value)`: one `0x`-prefixed encoded
parameter, or the `Unsupported type` error for a type string outside the
dispatch chain. -/
def encodeParameter (ty : List Char) (v : AbiValue) : Except EncError (List Char) :=
  if ty = "address".data then
    match v with
    | .vStr s => .ok ('0' :: 'x' :: padStart 64 '0' (replaceFirst0x (s.map Char.toLower)))
    | _ => .error .badValue
  else if listStartsWith "uint".data ty then
    match v with
    | .vInt i => .ok ('0' :: 'x' :: padStart 64 '0' (intToHex i))
    | _ => .error .badValue
  else if listStartsWith "int".data ty then
    match v with
    | .vInt i =>
      let num : Int := if i < 0 then 2 ^ 256 + i else i
      .ok ('0' :: 'x' :: padStart 64 '0' (intToHex num))
    | _ => .error .badValue
  else if ty = "bool".data then
    .ok ('0' :: 'x' :: padStart 64 '0' [if truthy v then '1' else '0'])
  else if ty = "bytes32".data then
    match v with
    | .vStr s => .ok ('0' :: 'x' :: padEnd 64 '0' (strip0x s))
    | _ => .error .badValue
  else if ty = "string".data then
    match v with
    | .vStr s =>
      let bytes := utf8Encode s
      let lengthHex := padStart 64 '0' (natToHex bytes.length)
      let dataHex := padRightTo64 (bytesToHexChars bytes)
      .ok ('0' :: 'x' :: (lengthHex ++ dataHex))
    | _ => .error .badValue
  else if ty = "bytes".data then
    match v with
    | .vStr s =>
      let hex := strip0x s
      let lengthHex := padStart 64 '0' (natToHex (hex.length / 2))
      let dataHex := padRightTo64 hex
      .ok ('0' :: 'x' :: (lengthHex ++ dataHex))
    | _ => .error .badValue
  else .error (.unsupportedType ty)

/-- `Contract.decodeParameter(type, data, offset)`: a decoded value and the
new offset. `data` carries no `0x` prefix (the callers strip it). The
dynamic-string offset word is read exactly (JS `parseInt` is exact below
`2 ^ 53`, which covers every input in the theorems here). -/
def decodeParameter (ty data : List Char) (offset : Nat) :
    Except DecError (DecodedValue × Nat) :=
  let chunk := (data.drop offset).take 64
  if ty = "address".data then
    .ok (.dStr ('0' :: 'x' :: chunk.drop 24), offset + 64)
  else if listStartsWith "uint".data ty then
    .ok (.dInt (hexToNat chunk), offset + 64)
  else if listStartsWith "int".data ty then
    match decodeIntBits ty with
    | none => .error .badData
    | some bits =>
      if bits = 0 then .error .badData
      else
        let num : Int := hexToNat chunk
        let max : Int := 2 ^ (bits - 1)
        .ok (.dInt (if max ≤ num then num - 2 ^ bits else num), offset + 64)
  else if ty = "bool".data then
    .ok (.dBool (chunk.getLast? == some '1'), offset + 64)
  else if ty = "bytes32".data then
    .ok (.dStr ('0' :: 'x' :: chunk), offset + 64)
  else if ty = "string".data then
    let dataOffset := hexToNat chunk * 2
    let len := hexToNat ((data.drop dataOffset).take 64)
    let strData := (data.drop (dataOffset + 64)).take (len * 2)
    .ok (.dStr (utf8Decode (hexToBytes strData)), offset + 64)
  else .error (.unsupportedType ty)

/-- `Contract.encodeArguments(inputs, args)`: positional concatenation of
encoded parameters without their `0x` prefixes. A missing argument is a
`badValue` crash (arity mismatches are the spec's open question and out of
scope here). -/
def encodeArguments : List ABIParameter → List AbiValue → Except EncError (List Char)
  | [], _ => .ok []
  | _ :: _, [] => .error .badValue
  | inp :: rest, a :: as =>
    match encodeParameter inp.type a with
    | .error e => .error e
    | .ok w =>
      match encodeArguments rest as with
      | .error e => .error e
      | .ok r => .ok (w.drop 2 ++ r)

/-- Offset-threading loop of `Contract.decodeArguments`. -/
def decodeArgumentsAux : List ABIParameter → List Char → Nat →
    Except DecError (List DecodedValue)
  | [], _, _ => .ok []
  | out :: rest, data, offset =>
    match decodeParameter out.type data offset with
    | .error e => .error e
    | .ok (v, newOffset) =>
      match decodeArgumentsAux rest data newOffset with
      | .error e => .error e
      | .ok vs => .ok (v :: vs)

/-- `Contract.decodeArguments(outputs, data)`: strip an optional `0x`, then
decode each output positionally with a running offset. -/
def decodeArguments (outputs : List ABIParameter) (data : List Char) :
    Except DecError (List DecodedValue) :=
  decodeArgumentsAux outputs (strip0x data) 0

/-- The canonical signature string `name(type,type,...)` the source builds:
parameter types only, comma-joined, no names, no spaces. An absent name
interpolates as the string `undefined`, as in JS. -/
def canonicalSignature (item : ABIFunction) : List Char :=
  item.name.getD "undefined".data ++ '(' ::
    (List.intercalate ",".data ((item.inputs.getD []).map (·.type)) ++ [')'])

/-- `Contract.functionSelector(abiItem)`: `0x` plus the first 8 hex digits
of the keccak-256 of the canonical signature. -/
def functionSelector (item : ABIFunction) : List Char :=
  '0' :: 'x' :: (keccak256OfString (canonicalSignature item)).take 8

/-- `Contract.encodeCall(abiItem, args)`: selector plus encoded arguments. -/
def encodeCall (item : ABIFunction) (args : List AbiValue) :
    Except EncError (List Char) :=
  match encodeArguments (item.inputs.getD []) args with
  | .error e => .error e
  | .ok enc => .ok (functionSelector item ++ enc)

/-- Result of `Contract.decodeResult`: JS `null`, a single bare value, or
the array of decoded values. -/
inductive CallResult
  | nullRes
  | one (v : DecodedValue)
  | many (vs : List DecodedValue)
deriving DecidableEq

/-- `Contract.decodeResult(abiItem, data)`: `null` for zero declared
outputs, the bare first value for one, the list for several. The `getD`
default is unreachable (the decoded list has the outputs' length). -/
def decodeResult (item : ABIFunction) (data : List Char) :
    Except DecError CallResult :=
  if item.outputs.getD [] = [] then .ok .nullRes
  else
    match decodeArguments (item.outputs.getD []) data with
    | .error e => .error e
    | .ok decoded =>
      if (item.outputs.getD []).length = 1 then .ok (.one (decoded.getD 0 (.dBool false)))
      else .ok (.many decoded)

end Contract

/-! ### Contract call/event layer (src/contract.ts)

`call`, `send` and `estimateGas` are modelled up to the RPC boundary: a
successful result is the request the method would hand to the external RPC
primitive, so an error result means no RPC request was issued. -/

/-- utils `functionSelector(signature)` (part of the utilities module). -/
def functionSelectorSig (signature : List Char) : List Char :=
  '0' :: 'x' :: (keccak256OfString signature).take 8

/-- utils `eventTopic(signature)`. -/
def eventTopic (signature : List Char) : List Char :=
  '0' :: 'x' :: keccak256OfString signature

/-- Errors of the contract layer: the thrown
`Method ${method} not found in ABI` / `Event ${eventName} not found in ABI`
errors, or a propagated codec error. -/
inductive CallError
  | methodNotFound (m : List Char)
  | eventNotFound (e : List Char)
  | encErr (e : EncError)
deriving DecidableEq

namespace Contract

/-- The ABI lookup shared by `call`, `send` and `estimateGas`:
`abi.find(i => i.type === 'function' && i.name === method)`. -/
def findFunction (abi : List ABIFunction) (method : List Char) : Option ABIFunction :=
  abi.find? fun i => i.type == "function".data && i.name == some method

/-- `abi.find(i => i.type === 'event' && i.name === eventName)`. -/
def findEvent (abi : List ABIFunction) (eventName : List Char) : Option ABIFunction :=
  abi.find? fun i => i.type == "event".data && i.name == some eventName

/-- The read-only RPC request `call` passes to `client.rpc.ethCall`. -/
structure EthCallRequest where
  «to» : List Char
  data : List Char
deriving DecidableEq

/-- `Contract.call(method, args)`, up to the RPC boundary: ABI lookup by
exact name, then calldata construction. -/
def call (abi : List ABIFunction) (address : List Char) (method : List Char)
    (args : List AbiValue) : Except CallError EthCallRequest :=
  match findFunction abi method with
  | none => .error (.methodNotFound method)
  | some item =>
    match encodeCall item args with
    | .error e => .error (.encErr e)
    | .ok data => .ok { «to» := address, data := data }

/-- The transaction draft `send` hands to `client.sendTransaction`:
`value` defaults to `'0x0'` and `gasLimit` to `'0x100000'`. -/
structure SendDraft where
  «to» : List Char
  data : List Char
  value : List Char
  gasLimit : List Char
  gasPrice : Option (List Char)
deriving DecidableEq

/-- The caller-supplied `options` of `send`/`call`/`estimateGas`. -/
structure CallOptions where
  value : Option Int := none
  gasLimit : Option (List Char) := none
  gasPrice : Option (List Char) := none
deriving DecidableEq

/-- utils `numberToHex`. -/
def numberToHex (i : Int) : List Char :=
  '0' :: 'x' :: intToHex i

/-- `Contract.send(wallet, method, args, options)`, up to the handoff to
`client.sendTransaction`. -/
def send (abi : List ABIFunction) (address : List Char) (method : List Char)
    (args : List AbiValue) (options : CallOptions) : Except CallError SendDraft :=
  match findFunction abi method with
  | none => .error (.methodNotFound method)
  | some item =>
    match encodeCall item args with
    | .error e => .error (.encErr e)
    | .ok data =>
      .ok { «to» := address, data := data,
            value := match options.value with
              | some v => if v = 0 then "0x0".data else numberToHex v
              | none => "0x0".data,
            gasLimit := (options.gasLimit.getD "0x100000".data),
            gasPrice := options.gasPrice }

/-- `Contract.estimateGas(method, args, options)`, up to the RPC boundary. -/
def estimateGas (abi : List ABIFunction) (address : List Char) (method : List Char)
    (args : List AbiValue) : Except CallError EthCallRequest :=
  match findFunction abi method with
  | none => .error (.methodNotFound method)
  | some item =>
    match encodeCall item args with
    | .error e => .error (.encErr e)
    | .ok data => .ok { «to» := address, data := data }

end Contract

/-- A log as the RPC returns it: topics and data blob, `0x`-prefixed. -/
structure Log where
  topics : List (List Char)
  data : List Char
deriving DecidableEq

/-- JS object property assignment `args[name] = value`: overwrite in place
when the key exists, append otherwise. -/
def jsAssign : List (List Char × DecodedValue) → List Char → DecodedValue →
    List (List Char × DecodedValue)
  | [], k, v => [(k, v)]
  | (k0, v0) :: rest, k, v =>
    if k0 = k then (k0, v) :: rest else (k0, v0) :: jsAssign rest k v

namespace EventDecoder

/-- The `EventDecoder` constructor's topic: the full keccak-256 of the
canonical event signature. -/
def topicOf (item : ABIFunction) : List Char :=
  '0' :: 'x' :: keccak256OfString (Contract.canonicalSignature item)

/-- The indexed-parameter loop of `EventDecoder.decode`: positional topics
from index 1; a missing topic skips the assignment without advancing. -/
def decodeIndexed : List ABIParameter → List (List Char) → Nat →
    List (List Char × DecodedValue) →
    Except DecError (List (List Char × DecodedValue))
  | [], _, _, args => .ok args
  | inp :: rest, topics, topicIndex, args =>
    if topicIndex < topics.length then
      match Contract.decodeParameter inp.type ((topics.getD topicIndex []).drop 2) 0 with
      | .error e => .error e
      | .ok (v, _) => decodeIndexed rest topics (topicIndex + 1) (jsAssign args inp.name v)
    else decodeIndexed rest topics topicIndex args

/-- `EventDecoder.decode(log)`, restricted to the `args` map it builds (the
`event` name and raw `log` fields are verbatim pass-throughs). -/
def decode (inputs : List ABIParameter) (log : Log) :
    Except DecError (List (List Char × DecodedValue)) :=
  let indexedInputs := inputs.filter (·.indexed)
  let nonIndexedInputs := inputs.filter fun i => !i.indexed
  match decodeIndexed indexedInputs log.topics 1 [] with
  | .error e => .error e
  | .ok args =>
    match Contract.decodeArguments nonIndexedInputs log.data with
    | .error e => .error e
    | .ok decoded =>
      .ok ((nonIndexedInputs.zip decoded).foldl (fun m p => jsAssign m p.1.name p.2) args)

end EventDecoder

namespace Contract

/-- The indexed-filter loop of `getPastEvents`: a filtered slot carries the
ABI-encoded value, an unfiltered slot is `null` (wildcard). -/
def buildTopicFilters (indexedInputs : List ABIParameter)
    (filter : List Char → Option AbiValue) :
    Except EncError (List (Option (List Char))) :=
  match indexedInputs with
  | [] => .ok []
  | inp :: rest =>
    match filter inp.name with
    | some v =>
      match encodeParameter inp.type v with
      | .error e => .error e
      | .ok enc =>
        match buildTopicFilters rest filter with
        | .error e => .error e
        | .ok t => .ok (some enc :: t)
    | none =>
      match buildTopicFilters rest filter with
      | .error e => .error e
      | .ok t => .ok (none :: t)

/-- `Contract.getPastEvents(eventName, options)`, up to the `getLogs` RPC
boundary: the topic filter array it would request, starting with the event
topic. `filter` is the caller's `options.filter` (`none` means absent). -/
def getPastEvents (abi : List ABIFunction) (eventName : List Char)
    (filter : Option (List Char → Option AbiValue)) :
    Except CallError (List (Option (List Char))) :=
  match findEvent abi eventName with
  | none => .error (.eventNotFound eventName)
  | some eventAbi =>
    let topic0 : List (Option (List Char)) := [some (EventDecoder.topicOf eventAbi)]
    match filter with
    | none => .ok topic0
    | some f =>
      match buildTopicFilters ((eventAbi.inputs.getD []).filter (·.indexed)) f with
      | .error e => .error (.encErr e)
      | .ok t => .ok (topic0 ++ t)

end Contract

/-! ### RLP encoder

Modelled from the spec: the source delegates to the external `rlp` package,
which the spec describes in §4.2 — each field normalized to a minimal
big-endian byte string (zero becomes the empty byte string), single bytes
below `0x80` encode as themselves, longer strings and lists get short- or
long-form length headers. -/

/-- Fuel-driven minimal big-endian byte representation. -/
def beBytesAux : Nat → Nat → List Nat
  | 0, _ => []
  | f + 1, n => if n = 0 then [] else beBytesAux f (n / 256) ++ [n % 256]

/-- Minimal big-endian bytes of an integer: zero is the empty byte string,
a positive value has no leading zero byte. -/
def beBytes (n : Nat) : List Nat :=
  beBytesAux n n

/-- RLP length header: short form `base + len` for payloads up to 55 bytes,
else `base + 55 + |len bytes|` followed by the big-endian length. -/
def rlpLengthHeader (base len : Nat) : List Nat :=
  if len ≤ 55 then [base + len]
  else
    let lb := beBytes len
    (base + 55 + lb.length) :: lb

/-- RLP encoding of one byte string. -/
def rlpEncodeBytes (bs : List Nat) : List Nat :=
  if bs.length = 1 ∧ bs.headD 0 < 0x80 then bs
  else rlpLengthHeader 0x80 bs.length ++ bs

/-- An item the `rlp` package accepts here: a byte string or a JS number
(which it converts to minimal big-endian bytes). -/
inductive RlpInput
  | bytes (bs : List Nat)
  | num (n : Nat)
deriving DecidableEq

/-- RLP encoding of one input item. -/
def rlpEncodeItem : RlpInput → List Nat
  | .bytes bs => rlpEncodeBytes bs
  | .num n => rlpEncodeBytes (beBytes n)

/-- RLP encoding of a flat list of items. -/
def rlpEncodeList (items : List RlpInput) : List Nat :=
  let payload := (items.map rlpEncodeItem).flatten
  rlpLengthHeader 0xC0 payload.length ++ payload

example : rlpEncodeBytes [] = [0x80] := by decide

example : rlpEncodeList [] = [0xC0] := by decide

/-! ### Wallet / signer (dist/wallet.js)

secp256k1 is the spec's external signing primitive, so `Wallet.sign` and
`Wallet.signTransaction` are parametrized by an arbitrary `Signer`; the
wallet itself is its stored `0x`-prefixed private-key string. -/

/-- A recoverable ECDSA signature as `secp256k1.ecdsaSign` returns it:
64 bytes `r ++ s` and a recovery id. -/
structure SigRes where
  signature : List Nat
  recid : Nat

/-- The external deterministic signing primitive:
`(messageHash32, privateKeyBytes) ↦ recoverable signature`. -/
def Signer : Type :=
  List Nat → List Nat → SigRes

/-- A JS numeric transaction field: `number`/`bigint`, or a string
(`BigInt(value)` parses `0x` hex or decimal). -/
inductive NumLike
  | num (n : Int)
  | str (s : List Char)
deriving DecidableEq

/-- JS `BigInt` on a string: `0x` hex or (optionally signed) decimal. -/
def parseBigInt (s : List Char) : Int :=
  if s.take 2 = ['0', 'x'] then (hexToNat (s.drop 2) : Int)
  else
    match s with
    | '-' :: rest => -((rest.foldl (fun a c => 10 * a + (c.toNat - 48)) 0 : Nat) : Int)
    | _ => ((s.foldl (fun a c => 10 * a + (c.toNat - 48)) 0 : Nat) : Int)

/-- The numeric value of a field (`BigInt(value)`; both branches of the
source's `typeof` test call `BigInt`). -/
def NumLike.toBigInt : NumLike → Int
  | .num n => n
  | .str s => parseBigInt s

/-- JS falsiness of a numeric field, for the `tx.field || default`
defaulting: `0`, `0n` and `''` are falsy. -/
def numLikeFalsy : NumLike → Bool
  | .num n => n == 0
  | .str s => s == []

/-- `tx.field || default` on an optional numeric field. -/
def orDefaultNum (o : Option NumLike) (d : NumLike) : NumLike :=
  match o with
  | some v => if numLikeFalsy v then d else v
  | none => d

/-- `tx.chainId || 1337` (`chainId` is a plain JS number). -/
def orDefaultNat (o : Option Nat) (d : Nat) : Nat :=
  match o with
  | some c => if c = 0 then d else c
  | none => d

/-- The mutable transaction draft `signTransaction` receives. -/
structure TransactionRequest where
  «to» : Option (List Char) := none
  value : Option NumLike := none
  data : Option (List Char) := none
  nonce : Option NumLike := none
  gasLimit : Option NumLike := none
  gasPrice : Option NumLike := none
  chainId : Option Nat := none

namespace Wallet

/-- `Wallet.toRlpNumber(value)`: zero becomes the empty byte string, any
other value its hex digits padded to even length and read as bytes. -/
def toRlpNumber (value : NumLike) : List Nat :=
  let num := value.toBigInt
  if num = 0 then []
  else
    let hex := intToHex num
    let paddedHex := if hex.length % 2 = 1 then '0' :: hex else hex
    hexToBytes paddedHex

/-- `Wallet.sign(message)` for a string message, with the signing
primitive passed explicitly. `privateKey` is the stored `0x`-prefixed key. -/
def sign (ecdsaSign : Signer) (privateKey : List Char) (message : List Char) :
    List Char :=
  let messageBytes := utf8Encode message
  let prefixBytes := utf8Encode
    ("\x19Ethereum Signed Message:\n".data ++ (Nat.repr messageBytes.length).data)
  let fullMessage := prefixBytes ++ messageBytes
  let hash := hexToBytes (keccak256OfBytes fullMessage)
  let privateKeyBytes := hexToBytes (privateKey.drop 2)
  let res := ecdsaSign hash privateKeyBytes
  let r := bytesToHex (res.signature.take 32)
  let s := bytesToHex ((res.signature.drop 32).take 32)
  let v := padStart 2 '0' (natToHex (res.recid + 27))
  r ++ (s.drop 2 ++ v)

/-- `Wallet.signTransaction(tx)` (EIP-155), with the signing primitive
passed explicitly. -/
def signTransaction (ecdsaSign : Signer) (privateKey : List Char)
    (tx : TransactionRequest) : List Char :=
  let chainId := orDefaultNat tx.chainId 1337
  let nonce := toRlpNumber (orDefaultNum tx.nonce (.num 0))
  let gasPrice := toRlpNumber (orDefaultNum tx.gasPrice (.str "0x3B9ACA00".data))
  let gasLimit := toRlpNumber (orDefaultNum tx.gasLimit (.num 21000))
  let toBytes := hexToBytes (tx.«to».getD [])
  let value := toRlpNumber (orDefaultNum tx.value (.num 0))
  let data := hexToBytes (tx.data.getD [])
  let rawTx : List RlpInput :=
    [.bytes nonce, .bytes gasPrice, .bytes gasLimit, .bytes toBytes, .bytes value,
     .bytes data, .num chainId, .num 0, .num 0]
  let encoded := rlpEncodeList rawTx
  let hash := hexToBytes (keccak256OfBytes encoded)
  let privateKeyBytes := hexToBytes (privateKey.drop 2)
  let res := ecdsaSign hash privateKeyBytes
  let r := res.signature.take 32
  let s := (res.signature.drop 32).take 32
  let v := res.recid + chainId * 2 + 35
  let signedTx : List RlpInput :=
    [.bytes nonce, .bytes gasPrice, .bytes gasLimit, .bytes toBytes, .bytes value,
     .bytes data, .num v, .bytes r, .bytes s]
  bytesToHex (rlpEncodeList signedTx)

end Wallet

/-! ### Spec-side definitions used by the claim statements -/

instance {ε α : Type} [DecidableEq ε] [DecidableEq α] : DecidableEq (Except ε α) :=
  fun a b =>
    match a, b with
    | .ok x, .ok y => decidable_of_iff (x = y) (by simp)
    | .error x, .error y => decidable_of_iff (x = y) (by simp)
    | .ok _, .error _ => isFalse (by simp)
    | .error _, .ok _ => isFalse (by simp)

/-- Image of an argument value under the decoder's value representation. -/
def toDecoded : AbiValue → DecodedValue
  | .vStr s => .dStr s
  | .vInt i => .dInt i
  | .vBool b => .dBool b

/-- The type/value pairs for which the encode-decode round-trip holds on
this codec: lower-case `0x` addresses, in-range `uintN` values, `intN`
values that are non-negative or (for 256-bit ints) negative in range,
booleans, full-length `bytes32` words, and the empty string. -/
def SupportedRoundTrip (ty : List Char) (v : AbiValue) : Prop :=
  (ty = "address".data ∧
    ∃ t, v = .vStr ('0' :: 'x' :: t) ∧ t.length = 40 ∧
      ∀ c ∈ t, c ∈ "0123456789abcdef".data) ∨
  ((∃ suffix, ty = 'u' :: 'i' :: 'n' :: 't' :: suffix) ∧
    ∃ n : Int, v = .vInt n ∧ 0 ≤ n ∧ n < 2 ^ 256) ∨
  ((∃ suffix, ty = 'i' :: 'n' :: 't' :: suffix) ∧
    ∃ N, ∃ i : Int, decodeIntBits ty = some N ∧ 0 < N ∧ N ≤ 256 ∧ v = .vInt i ∧
      ((0 ≤ i ∧ i < 2 ^ (N - 1)) ∨ (N = 256 ∧ -(2 ^ 255) ≤ i ∧ i < 0))) ∨
  (ty = "bool".data ∧ ∃ b, v = .vBool b) ∨
  (ty = "bytes32".data ∧ ∃ t, v = .vStr ('0' :: 'x' :: t) ∧ t.length = 64) ∨
  (ty = "string".data ∧ v = .vStr [])

/-- The encoder's dispatch conditions: the type strings that reach an
encoding branch instead of the `Unsupported type` error. -/
def encSupported (ty : List Char) : Bool :=
  ty == "address".data || listStartsWith "uint".data ty || listStartsWith "int".data ty ||
    ty == "bool".data || ty == "bytes32".data || ty == "string".data || ty == "bytes".data

/-- The decoder's dispatch conditions — the same chain without `bytes`. -/
def decSupported (ty : List Char) : Bool :=
  ty == "address".data || listStartsWith "uint".data ty || listStartsWith "int".data ty ||
    ty == "bool".data || ty == "bytes32".data || ty == "string".data

/-- The ERC20 `transfer` ABI entry (with parameter names, as callers
supply it). -/
def transferAbiEntry : ABIFunction :=
  { type := "function".data, name := some "transfer".data,
    inputs := some [{ name := "to".data, type := "address".data },
                    { name := "amount".data, type := "uint256".data }],
    outputs := some [{ name := [], type := "bool".data }] }

/-- The `Transfer(address,address,uint256)` event inputs: two indexed
addresses and a non-indexed amount. -/
def transferEventInputs : List ABIParameter :=
  [{ name := "from".data, type := "address".data, indexed := true },
   { name := "to".data, type := "address".data, indexed := true },
   { name := "value".data, type := "uint256".data, indexed := false }]

/-- Big-endian value of a byte string. -/
def beVal (bs : List Nat) : Nat :=
  bs.foldl (fun a b => 256 * a + b) 0

/-- Left-pad a hex string with one `'0'` when its length is odd (the
normalization inside `toRlpNumber`). -/
def padEvenHex (l : List Char) : List Char :=
  if l.length % 2 = 1 then '0' :: l else l

/-- The transaction-signing pipeline as the spec words it: default absent
fields, RLP-encode the EIP-155 9-tuple `[nonce, gasPrice, gasLimit, to,
value, data, chainId, 0, 0]`, sign its keccak-256 hash, set
`v = recoveryId + chainId * 2 + 35`, and return the hex of the RLP of
`[nonce, gasPrice, gasLimit, to, value, data, v, r, s]`. -/
def signTransactionSpec (ecdsaSign : Signer) (privateKey : List Char)
    (tx : TransactionRequest) : List Char :=
  let chainId := orDefaultNat tx.chainId 1337
  let nonce := Wallet.toRlpNumber (orDefaultNum tx.nonce (.num 0))
  let gasPrice := Wallet.toRlpNumber (orDefaultNum tx.gasPrice (.str "0x3B9ACA00".data))
  let gasLimit := Wallet.toRlpNumber (orDefaultNum tx.gasLimit (.num 21000))
  let toBytes := hexToBytes (tx.«to».getD [])
  let value := Wallet.toRlpNumber (orDefaultNum tx.value (.num 0))
  let data := hexToBytes (tx.data.getD [])
  let signingHash := keccak256Bytes (rlpEncodeList
    [.bytes nonce, .bytes gasPrice, .bytes gasLimit, .bytes toBytes, .bytes value,
     .bytes data, .num chainId, .num 0, .num 0])
  let res := ecdsaSign signingHash (hexToBytes (privateKey.drop 2))
  let v := res.recid + chainId * 2 + 35
  bytesToHex (rlpEncodeList
    [.bytes nonce, .bytes gasPrice, .bytes gasLimit, .bytes toBytes, .bytes value,
     .bytes data, .num v, .bytes (res.signature.take 32),
     .bytes ((res.signature.drop 32).take 32)])

/-- The personal-sign operation as the spec words it: keccak-256 of the
`"\x19Ethereum Signed Message:\n" ++ decimal byte length ++ message` bytes,
signed, returned as the 65-byte hex string `r(32) ++ s(32) ++
(recoveryId + 27)(1)`. -/
def personalSignSpec (ecdsaSign : Signer) (privateKey : List Char)
    (message : List Char) : List Char :=
  let messageBytes := utf8Encode message
  let digest := keccak256Bytes
    (utf8Encode ("\x19Ethereum Signed Message:\n".data ++ (Nat.repr messageBytes.length).data)
      ++ messageBytes)
  let res := ecdsaSign digest (hexToBytes (privateKey.drop 2))
  '0' :: 'x' :: (bytesToHexChars (res.signature.take 32) ++
    (bytesToHexChars ((res.signature.drop 32).take 32) ++
      padStart 2 '0' (natToHex (res.recid + 27))))

/-! ### Hex toolkit lemmas -/

theorem hexDigitVal_digitChar : ∀ d < 16, hexDigitVal (Nat.digitChar d) = d := by decide

theorem digitChar_mem_lower : ∀ d < 16, Nat.digitChar d ∈ "0123456789abcdef".data := by decide

theorem digitChar_ne_x : ∀ d < 16, Nat.digitChar d ≠ 'x' := by decide

theorem digitChar_ne_zero : ∀ d < 16, 0 < d → Nat.digitChar d ≠ '0' := by decide

theorem natToHexAux_zero_fuel (f : Nat) : natToHexAux f 0 = [] := by
  cases f <;> simp [natToHexAux]

theorem natToHexAux_congr (n : Nat) :
    ∀ f1 f2, n ≤ f1 → n ≤ f2 → natToHexAux f1 n = natToHexAux f2 n := by
  induction n using Nat.strong_induction_on with
  | _ n ih =>
    intro f1 f2 h1 h2
    match f1, f2 with
    | 0, f2 =>
      have : n = 0 := by omega
      subst this
      rw [natToHexAux_zero_fuel, natToHexAux_zero_fuel]
    | f1 + 1, 0 =>
      have : n = 0 := by omega
      subst this
      rw [natToHexAux_zero_fuel, natToHexAux_zero_fuel]
    | a + 1, b + 1 =>
      by_cases hn : n = 0
      · subst hn
        rw [natToHexAux_zero_fuel, natToHexAux_zero_fuel]
      · have hdiv : n / 16 < n := Nat.div_lt_self (Nat.pos_of_ne_zero hn) (by norm_num)
        simp only [natToHexAux, if_neg hn]
        rw [ih (n / 16) hdiv a b (by omega) (by omega)]

theorem natToHex_of_lt16 (n : Nat) (h0 : 0 < n) (h : n < 16) :
    natToHex n = [Nat.digitChar n] := by
  have hn : n ≠ 0 := by omega
  obtain ⟨m, rfl⟩ : ∃ m, n = m + 1 := ⟨n - 1, by omega⟩
  simp only [natToHex, if_neg hn, natToHexAux, if_neg hn]
  rw [Nat.div_eq_of_lt h, natToHexAux_zero_fuel, Nat.mod_eq_of_lt h]
  simp

theorem natToHex_of_ge16 (n : Nat) (h : 16 ≤ n) :
    natToHex n = natToHex (n / 16) ++ [Nat.digitChar (n % 16)] := by
  have hn : n ≠ 0 := by omega
  have hq : n / 16 ≠ 0 := by
    have := Nat.one_le_div_iff (by norm_num : 0 < 16) |>.mpr h
    omega
  obtain ⟨m, hm⟩ : ∃ m, n = m + 1 := ⟨n - 1, by omega⟩
  conv_lhs => rw [natToHex, if_neg hn, hm]
  rw [natToHex, if_neg hq]
  simp only [natToHexAux, if_neg (hm ▸ hn)]
  rw [← hm]
  congr 1
  have hdiv : n / 16 < n := Nat.div_lt_self (Nat.pos_of_ne_zero hn) (by norm_num)
  exact natToHexAux_congr (n / 16) m (n / 16) (by omega) (le_refl _)

theorem natToHex_ne_nil (n : Nat) : natToHex n ≠ [] := by
  by_cases h0 : n = 0
  · subst h0; simp [natToHex]
  · by_cases h16 : n < 16
    · rw [natToHex_of_lt16 n (Nat.pos_of_ne_zero h0) h16]; simp
    · rw [natToHex_of_ge16 n (by omega)]; simp

theorem natToHex_mem_lower (n : Nat) : ∀ c ∈ natToHex n, c ∈ "0123456789abcdef".data := by
  induction n using Nat.strong_induction_on with
  | _ n ih =>
    by_cases h0 : n = 0
    · subst h0
      intro c hc
      simp [natToHex] at hc
      subst hc
      decide
    · by_cases h16 : n < 16
      · rw [natToHex_of_lt16 n (Nat.pos_of_ne_zero h0) h16]
        intro c hc
        simp at hc
        subst hc
        exact digitChar_mem_lower n h16
      · rw [natToHex_of_ge16 n (by omega)]
        intro c hc
        rw [List.mem_append] at hc
        rcases hc with hc | hc
        · exact ih (n / 16) (Nat.div_lt_self (Nat.pos_of_ne_zero h0) (by norm_num)) c hc
        · simp at hc
          subst hc
          exact digitChar_mem_lower (n % 16) (Nat.mod_lt n (by norm_num))

theorem natToHex_head_ne_zero (n : Nat) (h : 0 < n) :
    (natToHex n).headD 'z' ≠ '0' := by
  induction n using Nat.strong_induction_on with
  | _ n ih =>
    by_cases h16 : n < 16
    · rw [natToHex_of_lt16 n h h16]
      exact digitChar_ne_zero n h16 h
    · rw [natToHex_of_ge16 n (by omega)]
      have hq : 0 < n / 16 := by
        have := Nat.one_le_div_iff (by norm_num : 0 < 16) |>.mpr (by omega : 16 ≤ n)
        omega
      have hne := natToHex_ne_nil (n / 16)
      obtain ⟨c, rest, hcr⟩ : ∃ c rest, natToHex (n / 16) = c :: rest := by
        cases hh : natToHex (n / 16) with
        | nil => exact absurd hh hne
        | cons c rest => exact ⟨c, rest, rfl⟩
      have := ih (n / 16) (Nat.div_lt_self (by omega) (by norm_num)) hq
      rw [hcr] at this ⊢
      simpa using this

theorem hexToNat_foldl_acc (l : List Char) :
    ∀ a : Nat, l.foldl (fun a c => 16 * a + hexDigitVal c) a = a * 16 ^ l.length + hexToNat l := by
  induction l with
  | nil => intro a; simp [hexToNat]
  | cons c rest ih =>
    intro a
    simp only [List.foldl_cons, List.length_cons, hexToNat]
    rw [ih (16 * a + hexDigitVal c), ih (16 * 0 + hexDigitVal c)]
    ring

theorem hexToNat_append (a b : List Char) :
    hexToNat (a ++ b) = hexToNat a * 16 ^ b.length + hexToNat b := by
  simp only [hexToNat, List.foldl_append]
  rw [hexToNat_foldl_acc]
  rfl

theorem hexToNat_replicate_zero (k : Nat) : hexToNat (List.replicate k '0') = 0 := by
  induction k with
  | zero => simp [hexToNat]
  | succ m ih =>
    rw [List.replicate_succ, hexToNat, List.foldl_cons]
    have h0 : hexDigitVal '0' = 0 := by decide
    rw [h0]
    simpa [hexToNat] using ih

theorem hexToNat_replicate_zero_append (k : Nat) (l : List Char) :
    hexToNat (List.replicate k '0' ++ l) = hexToNat l := by
  rw [hexToNat_append, hexToNat_replicate_zero]
  simp

theorem hexToNat_natToHex (n : Nat) : hexToNat (natToHex n) = n := by
  induction n using Nat.strong_induction_on with
  | _ n ih =>
    by_cases h0 : n = 0
    · subst h0; decide
    · by_cases h16 : n < 16
      · rw [natToHex_of_lt16 n (Nat.pos_of_ne_zero h0) h16]
        simpa [hexToNat] using hexDigitVal_digitChar n h16
      · rw [natToHex_of_ge16 n (by omega), hexToNat_append]
        rw [ih (n / 16) (Nat.div_lt_self (Nat.pos_of_ne_zero h0) (by norm_num))]
        have : hexToNat [Nat.digitChar (n % 16)] = n % 16 := by
          simpa [hexToNat] using hexDigitVal_digitChar (n % 16) (Nat.mod_lt n (by norm_num))
        rw [this]
        simp only [List.length_singleton, pow_one]
        omega

theorem natToHex_length_le (k : Nat) :
    ∀ n, 0 < k → n < 16 ^ k → (natToHex n).length ≤ k := by
  induction k using Nat.strong_induction_on with
  | _ k ih =>
    intro n hk hn
    by_cases h0 : n = 0
    · subst h0; simpa [natToHex] using hk
    · by_cases h16 : n < 16
      · rw [natToHex_of_lt16 n (Nat.pos_of_ne_zero h0) h16]
        simpa using hk
      · have hk2 : 2 ≤ k := by
          by_contra hcon
          have : k = 1 := by omega
          subst this
          simp at hn
          omega
        rw [natToHex_of_ge16 n (by omega)]
        have hq : n / 16 < 16 ^ (k - 1) := by
          rw [Nat.div_lt_iff_lt_mul (by norm_num : 0 < 16)]
          calc n < 16 ^ k := hn
          _ = 16 ^ (k - 1) * 16 := by
            rw [← pow_succ]
            congr 1
            omega
        have := ih (k - 1) (by omega) (n / 16) (by omega) hq
        simp only [List.length_append, List.length_singleton]
        omega

/-! ### Per-type codec lemmas -/

theorem sixteen_pow_64 : (16 : Nat) ^ 64 = 2 ^ 256 := by norm_num

theorem padStart_length_of_le (l : List Char) (c : Char) (h : l.length ≤ 64) :
    (padStart 64 c l).length = 64 := by
  simp [padStart]
  omega

theorem word_of_nat_length (n : Nat) (hn : n < 2 ^ 256) :
    (padStart 64 '0' (natToHex n)).length = 64 :=
  padStart_length_of_le _ _ (natToHex_length_le 64 n (by norm_num) (sixteen_pow_64 ▸ hn))

theorem word_of_nat_val (n : Nat) : hexToNat (padStart 64 '0' (natToHex n)) = n := by
  rw [padStart, hexToNat_replicate_zero_append, hexToNat_natToHex]

theorem take_64_of_word (w : List Char) (hw : w.length = 64) : w.take 64 = w := by
  rw [← hw, List.take_length]

theorem lower_toLower : ∀ c ∈ "0123456789abcdef".data, Char.toLower c = c := by decide

theorem uint_cons_ne_address (suffix : List Char) :
    'u' :: 'i' :: 'n' :: 't' :: suffix ≠ "address".data := by
  intro h
  injection h with h1 _
  exact absurd h1 (by decide)

theorem int_cons_ne_address (suffix : List Char) :
    'i' :: 'n' :: 't' :: suffix ≠ "address".data := by
  intro h
  injection h with h1 _
  exact absurd h1 (by decide)

theorem startsWith_uint_uint (suffix : List Char) :
    listStartsWith "uint".data ('u' :: 'i' :: 'n' :: 't' :: suffix) = true := rfl

theorem startsWith_uint_int (suffix : List Char) :
    listStartsWith "uint".data ('i' :: 'n' :: 't' :: suffix) = false := rfl

theorem startsWith_int_int (suffix : List Char) :
    listStartsWith "int".data ('i' :: 'n' :: 't' :: suffix) = true := rfl

theorem encode_uint_eq (suffix : List Char) (n : Int) (h0 : 0 ≤ n) :
    Contract.encodeParameter ('u' :: 'i' :: 'n' :: 't' :: suffix) (.vInt n) =
      .ok ('0' :: 'x' :: padStart 64 '0' (natToHex n.toNat)) := by
  rw [Contract.encodeParameter, if_neg (uint_cons_ne_address suffix),
    if_pos (startsWith_uint_uint suffix)]
  simp [intToHex, not_lt.mpr h0]

theorem encode_int_eq (suffix : List Char) (i : Int) :
    Contract.encodeParameter ('i' :: 'n' :: 't' :: suffix) (.vInt i) =
      .ok ('0' :: 'x' :: padStart 64 '0' (intToHex (if i < 0 then 2 ^ 256 + i else i))) := by
  rw [Contract.encodeParameter, if_neg (int_cons_ne_address suffix)]
  simp only [startsWith_uint_int, startsWith_int_int]
  rfl

theorem decode_uint_eq (suffix w : List Char) :
    Contract.decodeParameter ('u' :: 'i' :: 'n' :: 't' :: suffix) w 0 =
      .ok (.dInt (hexToNat (w.take 64)), 64) := by
  rw [Contract.decodeParameter, if_neg (uint_cons_ne_address suffix),
    if_pos (startsWith_uint_uint suffix)]
  simp

theorem decode_int_eq (suffix w : List Char) (N : Nat)
    (hbits : decodeIntBits ('i' :: 'n' :: 't' :: suffix) = some N) (hN : 0 < N) :
    Contract.decodeParameter ('i' :: 'n' :: 't' :: suffix) w 0 =
      .ok (.dInt (if (2 ^ (N - 1) : Int) ≤ (hexToNat (w.take 64) : Int)
          then (hexToNat (w.take 64) : Int) - 2 ^ N else (hexToNat (w.take 64) : Int)), 64) := by
  rw [Contract.decodeParameter, if_neg (int_cons_ne_address suffix),
    if_neg (ne_true_of_eq_false (startsWith_uint_int suffix)),
    if_pos (startsWith_int_int suffix), hbits]
  have hN0 : ¬ N = 0 := by omega
  simp [hN0]

theorem encode_address_eq (t : List Char) (ht : ∀ c ∈ t, c ∈ "0123456789abcdef".data) :
    Contract.encodeParameter "address".data (.vStr ('0' :: 'x' :: t)) =
      .ok ('0' :: 'x' :: padStart 64 '0' t) := by
  rw [Contract.encodeParameter, if_pos rfl]
  have hmap : t.map Char.toLower = t := by
    rw [show t.map Char.toLower = t.map id from
      List.map_congr_left (fun c hc => lower_toLower c (ht c hc)), List.map_id]
  simp [hmap, replaceFirst0x]

theorem decode_address_eq (t : List Char) (hlen : t.length = 40) :
    Contract.decodeParameter "address".data (padStart 64 '0' t) 0 =
      .ok (.dStr ('0' :: 'x' :: t), 64) := by
  rw [Contract.decodeParameter, if_pos rfl]
  have h1 : (padStart 64 '0' t).length = 64 := padStart_length_of_le t '0' (by omega)
  simp only [List.drop_zero, take_64_of_word _ h1]
  have hsplit : padStart 64 '0' t = List.replicate 24 '0' ++ t := by
    rw [padStart, hlen]
  have hdrop := List.drop_left (List.replicate 24 '0') t
  rw [List.length_replicate] at hdrop
  rw [hsplit, hdrop]

theorem encode_bytes32_eq (t : List Char) (hlen : t.length = 64) :
    Contract.encodeParameter "bytes32".data (.vStr ('0' :: 'x' :: t)) =
      .ok ('0' :: 'x' :: t) := by
  rw [Contract.encodeParameter, if_neg (by decide), if_neg (by decide), if_neg (by decide),
    if_neg (by decide), if_pos rfl]
  have hstrip : strip0x ('0' :: 'x' :: t) = t := by simp [strip0x]
  simp [hstrip, padEnd, hlen]

theorem decode_bytes32_eq (t : List Char) (hlen : t.length = 64) :
    Contract.decodeParameter "bytes32".data t 0 = .ok (.dStr ('0' :: 'x' :: t), 64) := by
  rw [Contract.decodeParameter, if_neg (by decide), if_neg (by decide), if_neg (by decide),
    if_neg (by decide), if_pos rfl]
  simp [take_64_of_word t hlen]

theorem decode_int_word (suffix : List Char) (N : Nat)
    (hbits : decodeIntBits ('i' :: 'n' :: 't' :: suffix) = some N) (hN : 0 < N)
    (n : Nat) (hn : n < 2 ^ 256) :
    Contract.decodeParameter ('i' :: 'n' :: 't' :: suffix) (padStart 64 '0' (natToHex n)) 0 =
      .ok (.dInt (if (2 ^ (N - 1) : Int) ≤ (n : Int) then (n : Int) - 2 ^ N
        else (n : Int)), 64) := by
  rw [decode_int_eq suffix _ N hbits hN,
    take_64_of_word _ (word_of_nat_length n hn), word_of_nat_val]

theorem decode_uint_word (suffix : List Char) (n : Nat) (hn : n < 2 ^ 256) :
    Contract.decodeParameter ('u' :: 'i' :: 'n' :: 't' :: suffix)
      (padStart 64 '0' (natToHex n)) 0 = .ok (.dInt (n : Int), 64) := by
  rw [decode_uint_eq suffix _,
    take_64_of_word _ (word_of_nat_length n hn), word_of_nat_val]

/-- C1. Corrected round-trip: for the amended set of valid type/value pairs
(lower-case addresses, in-range `uintN`, non-negative `intN` and in-range
`int256`, `bool`, full-length `bytes32`, the empty string — but not
negative sub-256-bit ints, not non-empty strings, and not `bytes`),
decoding the encoding without its `0x` prefix at offset 0 returns the
value back. -/
theorem C1_roundtrip_amended (ty : List Char) (v : AbiValue)
    (h : SupportedRoundTrip ty v) :
    ∃ w, Contract.encodeParameter ty v = .ok ('0' :: 'x' :: w) ∧
      Contract.decodeParameter ty w 0 = .ok (toDecoded v, 64) := by
  rcases h with ⟨hty, t, hv, hlen, hchars⟩ | ⟨⟨suffix, hty⟩, n, hv, h0, hn⟩ |
    ⟨⟨suffix, hty⟩, N, i, hbits, hN, hN256, hv, hrange⟩ | ⟨hty, b, hv⟩ |
    ⟨hty, t, hv, hlen⟩ | ⟨hty, hv⟩
  · subst hty hv
    exact ⟨padStart 64 '0' t, encode_address_eq t hchars, decode_address_eq t hlen⟩
  · subst hty hv
    refine ⟨padStart 64 '0' (natToHex n.toNat), encode_uint_eq suffix n h0, ?_⟩
    rw [decode_uint_word suffix n.toNat (by omega)]
    simp [toDecoded]
    omega
  · subst hty hv
    rcases hrange with ⟨hi0, hilt⟩ | ⟨hNeq, hige, hilt⟩
    · have hneg : ¬ i < 0 := by omega
      have hle : (2 : Int) ^ (N - 1) ≤ 2 ^ 255 :=
        pow_le_pow_right₀ (by norm_num) (by omega)
      have hi256 : i < 2 ^ 256 := by
        calc i < 2 ^ (N - 1) := hilt
        _ ≤ 2 ^ 255 := hle
        _ < 2 ^ 256 := by norm_num
      refine ⟨padStart 64 '0' (natToHex i.toNat), ?_, ?_⟩
      · rw [encode_int_eq suffix i, if_neg hneg, intToHex, if_neg hneg]
      · rw [decode_int_word suffix N hbits hN i.toNat (by omega)]
        rw [if_neg (by omega : ¬ (2 : Int) ^ (N - 1) ≤ (i.toNat : Int))]
        simp [toDecoded]
        omega
    · subst hNeq
      have hpos : (0 : Int) ≤ 2 ^ 256 + i := by
        have : -(2 : Int) ^ 255 > -(2 ^ 256) := by norm_num
        omega
      have hlt : 2 ^ 256 + i < 2 ^ 256 := by omega
      refine ⟨padStart 64 '0' (natToHex (2 ^ 256 + i).toNat), ?_, ?_⟩
      · rw [encode_int_eq suffix i, if_pos (by omega : i < 0), intToHex, if_neg (by omega)]
      · have hdec := decode_int_word suffix 256 hbits (by norm_num)
          ((2 ^ 256 + i).toNat) (by omega)
        rw [hdec]
        have hcast : (((2 ^ 256 + i).toNat : Int)) = 2 ^ 256 + i := by omega
        rw [hcast, if_pos (by omega : (2 : Int) ^ (256 - 1) ≤ 2 ^ 256 + i)]
        simp [toDecoded]
  · subst hty hv
    cases b
    · exact ⟨padStart 64 '0' ['0'], by decide, by decide⟩
    · exact ⟨padStart 64 '0' ['1'], by decide, by decide⟩
  · subst hty hv
    exact ⟨t, encode_bytes32_eq t hlen, decode_bytes32_eq t hlen⟩
  · subst hty hv
    exact ⟨List.replicate 64 '0', by decide, by decide⟩

/-- C1 witness: the round-trip at `uint256` value 100 and at a concrete
lower-case address. -/
theorem C1_roundtrip_amended_witness :
    (∃ w, Contract.encodeParameter "uint256".data (.vInt 100) = .ok ('0' :: 'x' :: w) ∧
      Contract.decodeParameter "uint256".data w 0 = .ok (toDecoded (.vInt 100), 64)) ∧
    (∃ w, Contract.encodeParameter "address".data
        (.vStr ('0' :: 'x' :: List.replicate 40 'a')) = .ok ('0' :: 'x' :: w) ∧
      Contract.decodeParameter "address".data w 0 =
        .ok (toDecoded (.vStr ('0' :: 'x' :: List.replicate 40 'a')), 64)) :=
  ⟨C1_roundtrip_amended "uint256".data (.vInt 100)
      (Or.inr (Or.inl ⟨⟨"256".data, rfl⟩, 100, rfl, by norm_num, by norm_num⟩)),
    C1_roundtrip_amended "address".data (.vStr ('0' :: 'x' :: List.replicate 40 'a'))
      (Or.inl ⟨rfl, List.replicate 40 'a', rfl, by decide, by decide⟩)⟩

/-- C1 counterexample: the encoder writes `int8 (-1)` as the 256-bit
two's-complement word of 64 `f` digits, but the width-aware decoder does
not map that word back to `-1` (it returns `2^256 - 257`). -/
theorem C1_counterexample :
    Contract.encodeParameter "int8".data (.vInt (-1)) =
      .ok ('0' :: 'x' :: List.replicate 64 'f') ∧
    Contract.decodeParameter "int8".data (List.replicate 64 'f') 0 ≠
      .ok (.dInt (-1), 64) := by
  constructor
  · decide
  · decide

/-- C6. Encoding `uint256 0` gives 64 zero hex digits; `int8 (-1)` gives 64
`f` digits; every negative `intN` value in range is encoded as the 256-bit
big-endian word of value `2^256 + v`; every in-range non-negative `uint`
value is encoded as its big-endian value left-zero-padded to 64 digits. -/
theorem C6_numeric_words :
    (Contract.encodeParameter "uint256".data (.vInt 0) =
      .ok ('0' :: 'x' :: List.replicate 64 '0')) ∧
    (Contract.encodeParameter "int8".data (.vInt (-1)) =
      .ok ('0' :: 'x' :: List.replicate 64 'f')) ∧
    (∀ suffix : List Char, ∀ i : Int, -(2 ^ 255) ≤ i → i < 0 →
      ∃ w, Contract.encodeParameter ('i' :: 'n' :: 't' :: suffix) (.vInt i) =
          .ok ('0' :: 'x' :: w) ∧ w.length = 64 ∧ (hexToNat w : Int) = 2 ^ 256 + i) ∧
    (∀ suffix : List Char, ∀ n : Int, 0 ≤ n → n < 2 ^ 256 →
      ∃ w, Contract.encodeParameter ('u' :: 'i' :: 'n' :: 't' :: suffix) (.vInt n) =
          .ok ('0' :: 'x' :: w) ∧ w.length = 64 ∧ (hexToNat w : Int) = n) := by
  refine ⟨by decide, by decide, ?_, ?_⟩
  · intro suffix i hge hlt
    have hpos : (0 : Int) ≤ 2 ^ 256 + i := by
      have : -(2 : Int) ^ 255 > -(2 ^ 256) := by norm_num
      omega
    have hbound : 2 ^ 256 + i < 2 ^ 256 := by omega
    refine ⟨padStart 64 '0' (natToHex (2 ^ 256 + i).toNat), ?_, ?_, ?_⟩
    · rw [encode_int_eq suffix i, if_pos (by omega : i < 0), intToHex, if_neg (by omega)]
    · exact word_of_nat_length _ (by omega)
    · rw [word_of_nat_val]
      omega
  · intro suffix n h0 hn
    refine ⟨padStart 64 '0' (natToHex n.toNat), encode_uint_eq suffix n h0, ?_, ?_⟩
    · exact word_of_nat_length _ (by omega)
    · rw [word_of_nat_val]
      omega

/-- C6 witness: the universal parts at `int16 (-2)` and `uint8 5`. -/
theorem C6_numeric_words_witness :
    (∃ w, Contract.encodeParameter ('i' :: 'n' :: 't' :: "16".data) (.vInt (-2)) =
        .ok ('0' :: 'x' :: w) ∧ w.length = 64 ∧ (hexToNat w : Int) = 2 ^ 256 + (-2)) ∧
    (∃ w, Contract.encodeParameter ('u' :: 'i' :: 'n' :: 't' :: "8".data) (.vInt 5) =
        .ok ('0' :: 'x' :: w) ∧ w.length = 64 ∧ (hexToNat w : Int) = 5) :=
  ⟨C6_numeric_words.2.2.1 "16".data (-2) (by norm_num) (by norm_num),
    C6_numeric_words.2.2.2 "8".data 5 (by norm_num) (by norm_num)⟩

/-- C3. The function selector is `0x` plus the first 8 hex digits (4 bytes)
of the keccak-256 of the canonical signature `name(type,type,...)` (types
only, comma-joined, no parameter names, no spaces); an event topic is the
full 32-byte hash of the same canonical signature; and
`functionSelector("transfer(address,uint256)") = "0xa9059cbb"`. -/
theorem C3_selector :
    (∀ item : ABIFunction, Contract.functionSelector item =
      '0' :: 'x' :: (keccak256OfString (Contract.canonicalSignature item)).take 8) ∧
    (∀ signature : List Char, functionSelectorSig signature =
      '0' :: 'x' :: (keccak256OfString signature).take 8) ∧
    (∀ item : ABIFunction, EventDecoder.topicOf item =
      '0' :: 'x' :: keccak256OfString (Contract.canonicalSignature item)) ∧
    (Contract.canonicalSignature transferAbiEntry = "transfer(address,uint256)".data) ∧
    (functionSelectorSig "transfer(address,uint256)".data = "0xa9059cbb".data) ∧
    (Contract.functionSelector transferAbiEntry = "0xa9059cbb".data) :=
  ⟨fun _ => rfl, fun _ => rfl, fun _ => rfl, by decide, by decide, by decide⟩

/-- C4. Corrected error dispatch: the encoder raises the recoverable
`Unsupported type` error naming the type exactly for type strings outside
its dispatch chain, and never for a supported one; the decoder does the
same for its chain — which, unlike the encoder's, excludes `bytes`. -/
theorem C4_unsupported_amended (ty : List Char) :
    (encSupported ty = false →
      ∀ v, Contract.encodeParameter ty v = .error (.unsupportedType ty)) ∧
    (encSupported ty = true →
      ∀ v, Contract.encodeParameter ty v ≠ .error (.unsupportedType ty)) ∧
    (decSupported ty = false →
      ∀ data offset, Contract.decodeParameter ty data offset =
        .error (.unsupportedType ty)) ∧
    (decSupported ty = true →
      ∀ data offset, Contract.decodeParameter ty data offset ≠
        .error (.unsupportedType ty)) := by
  refine ⟨?_, ?_, ?_, ?_⟩
  · intro h v
    simp only [encSupported, Bool.or_eq_false_iff, beq_eq_false_iff_ne, ne_eq] at h
    obtain ⟨⟨⟨⟨⟨⟨ha, hu⟩, hi⟩, hb⟩, h32⟩, hs⟩, hby⟩ := h
    rw [Contract.encodeParameter.eq_def, if_neg ha, if_neg (ne_true_of_eq_false hu),
      if_neg (ne_true_of_eq_false hi), if_neg hb, if_neg h32, if_neg hs, if_neg hby]
  · intro h v heq
    by_cases c1 : ty = "address".data
    · rw [Contract.encodeParameter.eq_def, if_pos c1] at heq
      cases v <;> simp at heq
    by_cases c2 : listStartsWith "uint".data ty = true
    · rw [Contract.encodeParameter.eq_def, if_neg c1, if_pos c2] at heq
      cases v <;> simp at heq
    by_cases c3 : listStartsWith "int".data ty = true
    · rw [Contract.encodeParameter.eq_def, if_neg c1, if_neg c2, if_pos c3] at heq
      cases v <;> simp at heq
    by_cases c4 : ty = "bool".data
    · rw [Contract.encodeParameter.eq_def, if_neg c1, if_neg c2, if_neg c3, if_pos c4] at heq
      simp at heq
    by_cases c5 : ty = "bytes32".data
    · rw [Contract.encodeParameter.eq_def, if_neg c1, if_neg c2, if_neg c3, if_neg c4,
        if_pos c5] at heq
      cases v <;> simp at heq
    by_cases c6 : ty = "string".data
    · rw [Contract.encodeParameter.eq_def, if_neg c1, if_neg c2, if_neg c3, if_neg c4, if_neg c5,
        if_pos c6] at heq
      cases v <;> simp at heq
    by_cases c7 : ty = "bytes".data
    · rw [Contract.encodeParameter.eq_def, if_neg c1, if_neg c2, if_neg c3, if_neg c4, if_neg c5,
        if_neg c6, if_pos c7] at heq
      cases v <;> simp at heq
    · simp [encSupported, c1, c2, c3, c4, c5, c6, c7] at h
  · intro h data offset
    simp only [decSupported, Bool.or_eq_false_iff, beq_eq_false_iff_ne, ne_eq] at h
    obtain ⟨⟨⟨⟨⟨ha, hu⟩, hi⟩, hb⟩, h32⟩, hs⟩ := h
    rw [Contract.decodeParameter.eq_def, if_neg ha, if_neg (ne_true_of_eq_false hu),
      if_neg (ne_true_of_eq_false hi), if_neg hb, if_neg h32, if_neg hs]
  · intro h data offset heq
    by_cases c1 : ty = "address".data
    · rw [Contract.decodeParameter.eq_def, if_pos c1] at heq
      simp at heq
    by_cases c2 : listStartsWith "uint".data ty = true
    · rw [Contract.decodeParameter.eq_def, if_neg c1, if_pos c2] at heq
      simp at heq
    by_cases c3 : listStartsWith "int".data ty = true
    · rw [Contract.decodeParameter.eq_def, if_neg c1, if_neg c2, if_pos c3] at heq
      cases hd : decodeIntBits ty with
      | none => rw [hd] at heq; simp at heq
      | some N =>
        rw [hd] at heq
        by_cases hN : N = 0
        · simp [hN] at heq
        · simp [hN] at heq
    by_cases c4 : ty = "bool".data
    · rw [Contract.decodeParameter.eq_def, if_neg c1, if_neg c2, if_neg c3, if_pos c4] at heq
      simp at heq
    by_cases c5 : ty = "bytes32".data
    · rw [Contract.decodeParameter.eq_def, if_neg c1, if_neg c2, if_neg c3, if_neg c4,
        if_pos c5] at heq
      simp at heq
    by_cases c6 : ty = "string".data
    · rw [Contract.decodeParameter.eq_def, if_neg c1, if_neg c2, if_neg c3, if_neg c4, if_neg c5,
        if_pos c6] at heq
      simp at heq
    · simp [decSupported, c1, c2, c3, c4, c5, c6] at h

/-- C4 witness: `tuple` fails with the error naming it; supported
`uint256` never reaches the error branch. -/
theorem C4_unsupported_amended_witness :
    Contract.encodeParameter "tuple".data (.vInt 0) =
      .error (.unsupportedType "tuple".data) ∧
    Contract.decodeParameter "uint256".data (List.replicate 64 '0') 0 ≠
      .error (.unsupportedType "uint256".data) :=
  ⟨(C4_unsupported_amended "tuple".data).1 (by decide) _,
    (C4_unsupported_amended "uint256".data).2.2.2 (by decide) _ _⟩

/-- C4 counterexample: `bytes` is in the encoder's supported set, yet its
decode always fires the `Unsupported type` error branch. -/
theorem C4_counterexample :
    encSupported "bytes".data = true ∧
    Contract.decodeParameter "bytes".data (List.replicate 64 '0') 0 =
      .error (.unsupportedType "bytes".data) := by
  constructor <;> decide

/-- C5. When the ABI has no function entry whose name equals the requested
method exactly, `call`, `send` and `estimateGas` fail with the
method-not-found error before reaching the RPC boundary; likewise for an
absent event name, `getPastEvents` fails with the event-not-found error. -/
theorem C5_lookup_errors (abi : List ABIFunction) (address m : List Char)
    (args : List AbiValue) (options : Contract.CallOptions)
    (filter : Option (List Char → Option AbiValue)) :
    ((∀ item ∈ abi, ¬(item.type = "function".data ∧ item.name = some m)) →
      Contract.call abi address m args = .error (.methodNotFound m) ∧
      Contract.send abi address m args options = .error (.methodNotFound m) ∧
      Contract.estimateGas abi address m args = .error (.methodNotFound m)) ∧
    ((∀ item ∈ abi, ¬(item.type = "event".data ∧ item.name = some m)) →
      Contract.getPastEvents abi m filter = .error (.eventNotFound m)) := by
  constructor
  · intro h
    have hfind : Contract.findFunction abi m = none := by
      rw [Contract.findFunction, List.find?_eq_none]
      intro x hx hc
      refine h x hx ?_
      simpa using hc
    refine ⟨?_, ?_, ?_⟩ <;>
      simp [Contract.call, Contract.send, Contract.estimateGas, hfind]
  · intro h
    have hfind : Contract.findEvent abi m = none := by
      rw [Contract.findEvent, List.find?_eq_none]
      intro x hx hc
      refine h x hx ?_
      simpa using hc
    simp [Contract.getPastEvents, hfind]

/-- C5 witness: an ABI holding only the `transfer` function has no `mint`
method and no `Burn` event. -/
theorem C5_lookup_errors_witness :
    Contract.call [transferAbiEntry] [] "mint".data [] =
      .error (.methodNotFound "mint".data) ∧
    Contract.getPastEvents [transferAbiEntry] "Burn".data none =
      .error (.eventNotFound "Burn".data) :=
  ⟨((C5_lookup_errors [transferAbiEntry] [] "mint".data [] {} none).1 (by decide)).1,
    (C5_lookup_errors [transferAbiEntry] [] "Burn".data [] {} none).2 (by decide)⟩

/-- C10. `decodeResult` returns `null` for zero declared outputs, the bare
decoded value (not a one-element list) for exactly one output, and the
list of decoded values in declaration order for two or more. -/
theorem C10_decode_result (item : ABIFunction) (data : List Char) :
    (item.outputs.getD [] = [] → Contract.decodeResult item data = .ok .nullRes) ∧
    (∀ o, item.outputs = some [o] →
      Contract.decodeResult item data =
        match Contract.decodeParameter o.type (strip0x data) 0 with
        | .error e => .error e
        | .ok (v, _) => .ok (.one v)) ∧
    (∀ outs, item.outputs = some outs → 2 ≤ outs.length →
      Contract.decodeResult item data =
        match Contract.decodeArguments outs data with
        | .error e => .error e
        | .ok decoded => .ok (.many decoded)) := by
  refine ⟨?_, ?_, ?_⟩
  · intro h
    rw [Contract.decodeResult, if_pos h]
  · intro o ho
    rw [Contract.decodeResult, ho]
    cases hd : Contract.decodeParameter o.type (strip0x data) 0 with
    | error e =>
      simp [Contract.decodeArguments, Contract.decodeArgumentsAux, hd]
    | ok p =>
      obtain ⟨v, off⟩ := p
      simp [Contract.decodeArguments, Contract.decodeArgumentsAux, hd]
  · intro outs ho hlen
    rw [Contract.decodeResult, ho]
    have hne : ¬((some outs).getD [] = []) := by
      cases outs
      · simp at hlen
      · simp
    rw [if_neg hne]
    simp only [Option.getD_some]
    cases hd : Contract.decodeArguments outs data with
    | error e => simp [hd]
    | ok decoded =>
      simp [hd]
      omega

/-- C10 witness: a single declared `uint256` output decodes to the bare
value. -/
theorem C10_decode_result_witness :
    Contract.decodeResult
      { type := "function".data,
        outputs := some [{ name := [], type := "uint256".data }] }
      (List.replicate 64 '0') = .ok (.one (.dInt 0)) := by
  rw [(C10_decode_result
    { type := "function".data,
      outputs := some [{ name := [], type := "uint256".data }] }
    (List.replicate 64 '0')).2.1 { name := [], type := "uint256".data } rfl]
  decide

/-- C9. Decoding a `Transfer(address,address,uint256)` log whose topics are
`[sigHash, encodedFrom, encodedTo]` (indexed parameters pulled positionally
from topic index 1 on, topic 0 skipped) and whose data is the encoded
amount (non-indexed parameters decoded positionally from the data blob)
yields the args map `{from, to, value}` matching the encoded inputs. -/
theorem C9_transfer_decode (fromT toT : List Char) (n : Int)
    (sigTopic tFrom tTo dVal : List Char)
    (hFlen : fromT.length = 40) (hFchars : ∀ c ∈ fromT, c ∈ "0123456789abcdef".data)
    (hTlen : toT.length = 40) (hTchars : ∀ c ∈ toT, c ∈ "0123456789abcdef".data)
    (h0 : 0 ≤ n) (hn : n < 2 ^ 256)
    (hF : Contract.encodeParameter "address".data (.vStr ('0' :: 'x' :: fromT)) = .ok tFrom)
    (hT : Contract.encodeParameter "address".data (.vStr ('0' :: 'x' :: toT)) = .ok tTo)
    (hV : Contract.encodeParameter "uint256".data (.vInt n) = .ok dVal) :
    EventDecoder.decode transferEventInputs
        { topics := [sigTopic, tFrom, tTo], data := dVal } =
      .ok [("from".data, .dStr ('0' :: 'x' :: fromT)),
           ("to".data, .dStr ('0' :: 'x' :: toT)),
           ("value".data, .dInt n)] := by
  rw [encode_address_eq fromT hFchars] at hF
  rw [encode_address_eq toT hTchars] at hT
  have hV2 : Contract.encodeParameter "uint256".data (.vInt n) =
      .ok ('0' :: 'x' :: padStart 64 '0' (natToHex n.toNat)) :=
    encode_uint_eq "256".data n h0
  rw [hV2] at hV
  obtain rfl : tFrom = '0' :: 'x' :: padStart 64 '0' fromT := by
    injection hF with h
    exact h.symm
  obtain rfl : tTo = '0' :: 'x' :: padStart 64 '0' toT := by
    injection hT with h
    exact h.symm
  obtain rfl : dVal = '0' :: 'x' :: padStart 64 '0' (natToHex n.toNat) := by
    injection hV with h
    exact h.symm
  have hdF := decode_address_eq fromT hFlen
  have hdT := decode_address_eq toT hTlen
  have hdV : Contract.decodeParameter "uint256".data
      (padStart 64 '0' (natToHex n.toNat)) 0 = .ok (.dInt n, 64) := by
    have h2 := decode_uint_word "256".data n.toNat (by omega)
    have h3 : ((n.toNat : Int)) = n := by omega
    rw [h3] at h2
    exact h2
  simp [EventDecoder.decode, transferEventInputs, EventDecoder.decodeIndexed,
    Contract.decodeArguments, Contract.decodeArgumentsAux, strip0x, jsAssign,
    hdF, hdT, hdV]

/-- C9 witness: a concrete Transfer log with two concrete addresses and
amount 100 decodes to the matching args map. -/
theorem C9_transfer_decode_witness :
    EventDecoder.decode transferEventInputs
        { topics := [[],
            '0' :: 'x' :: padStart 64 '0' (List.replicate 40 'a'),
            '0' :: 'x' :: padStart 64 '0' (List.replicate 40 'b')],
          data := '0' :: 'x' :: padStart 64 '0' (natToHex 100) } =
      .ok [("from".data, .dStr ('0' :: 'x' :: List.replicate 40 'a')),
           ("to".data, .dStr ('0' :: 'x' :: List.replicate 40 'b')),
           ("value".data, .dInt 100)] :=
  C9_transfer_decode (List.replicate 40 'a') (List.replicate 40 'b') 100 []
    ('0' :: 'x' :: padStart 64 '0' (List.replicate 40 'a'))
    ('0' :: 'x' :: padStart 64 '0' (List.replicate 40 'b'))
    ('0' :: 'x' :: padStart 64 '0' (natToHex 100))
    (by decide) (by decide) (by decide) (by decide) (by norm_num) (by norm_num)
    (by decide) (by decide) (by decide)

/-! ### Digest and byte-string glue lemmas -/

theorem bytesToHexChars_length (bs : List Nat) :
    (bytesToHexChars bs).length = 2 * bs.length := by
  induction bs with
  | nil => rfl
  | cons b rest ih =>
    simp [bytesToHexChars, byteToHex] at ih ⊢
    omega

theorem hexPairsToBytes_bytesToHexChars (bs : List Nat) (h : ∀ b ∈ bs, b < 256) :
    hexPairsToBytes (bytesToHexChars bs) = bs := by
  induction bs with
  | nil => rfl
  | cons b rest ih =>
    have hb : b < 256 := h b (List.mem_cons_self b rest)
    have hrest := ih fun x hx => h x (List.mem_cons_of_mem b hx)
    have hstep : bytesToHexChars (b :: rest) =
        Nat.digitChar (b / 16 % 16) :: Nat.digitChar (b % 16) :: bytesToHexChars rest := by
      simp [bytesToHexChars, byteToHex]
    rw [hstep, hexPairsToBytes, hrest]
    have h1 : b / 16 % 16 = b / 16 := Nat.mod_eq_of_lt (by omega)
    rw [h1, hexDigitVal_digitChar (b / 16) (by omega),
      hexDigitVal_digitChar (b % 16) (Nat.mod_lt b (by norm_num))]
    congr 1
    omega

theorem keccak256Bytes_lt (msg : List Nat) : ∀ b ∈ keccak256Bytes msg, b < 256 := by
  intro b hb
  simp only [keccak256Bytes, List.mem_flatten, List.mem_map, List.mem_range] at hb
  obtain ⟨l, ⟨i, _, hl⟩, hbl⟩ := hb
  subst hl
  simp only [List.mem_map, List.mem_range] at hbl
  obtain ⟨k, _, hk⟩ := hbl
  subst hk
  exact Nat.mod_lt _ (by norm_num)

theorem strip0x_bytesToHexChars (bs : List Nat) :
    strip0x (bytesToHexChars bs) = bytesToHexChars bs := by
  cases bs with
  | nil => rfl
  | cons b rest =>
    have hstep : bytesToHexChars (b :: rest) =
        Nat.digitChar (b / 16 % 16) :: Nat.digitChar (b % 16) :: bytesToHexChars rest := by
      simp [bytesToHexChars, byteToHex]
    have hneg : ¬ ((bytesToHexChars (b :: rest)).take 2 = ['0', 'x']) := by
      rw [hstep]
      intro hc
      have hx : Nat.digitChar (b % 16) = 'x' := by
        have h2 : (Nat.digitChar (b / 16 % 16) :: Nat.digitChar (b % 16) ::
            bytesToHexChars rest).take 2 =
            [Nat.digitChar (b / 16 % 16), Nat.digitChar (b % 16)] := rfl
        rw [h2] at hc
        injection hc with h1 ht
        injection ht
      exact digitChar_ne_x (b % 16) (Nat.mod_lt b (by norm_num)) hx
    rw [strip0x, if_neg hneg]

theorem hexToBytes_keccakHex (msg : List Nat) :
    hexToBytes (keccak256OfBytes msg) = keccak256Bytes msg := by
  rw [hexToBytes, keccak256OfBytes, strip0x_bytesToHexChars,
    hexPairsToBytes_bytesToHexChars _ (keccak256Bytes_lt msg)]

theorem sign_length_aux (res : SigRes) (h64 : res.signature.length = 64)
    (hrec : res.recid < 2) :
    (bytesToHex (res.signature.take 32) ++
      ((bytesToHex ((res.signature.drop 32).take 32)).drop 2 ++
        padStart 2 '0' (natToHex (res.recid + 27)))).length = 132 := by
  have hv : (padStart 2 '0' (natToHex (res.recid + 27))).length = 2 := by
    rcases (by omega : res.recid = 0 ∨ res.recid = 1) with h | h <;> rw [h] <;> decide
  simp [bytesToHex, bytesToHexChars_length, hv, h64]

/-- C7. `Wallet.sign` hashes the `"\x19Ethereum Signed Message:\n" ++
decimal byte length ++ message` bytes, signs that keccak-256 digest with
the external ECDSA primitive, and returns `r(32) ++ s(32) ++
(recoveryId + 27)(1)` as a `0x`-prefixed 65-byte hex string. -/
theorem C7_personal_sign :
    (∀ ecdsaSign : Signer, ∀ privateKey message : List Char,
      Wallet.sign ecdsaSign privateKey message =
        personalSignSpec ecdsaSign privateKey message) ∧
    (∀ ecdsaSign : Signer, ∀ privateKey message : List Char,
      (∀ h k, (ecdsaSign h k).signature.length = 64 ∧ (ecdsaSign h k).recid < 2) →
      (Wallet.sign ecdsaSign privateKey message).length = 2 + 65 * 2) := by
  constructor
  · intro signer key msg
    simp [Wallet.sign, personalSignSpec, bytesToHex, hexToBytes_keccakHex]
  · intro signer key msg hsig
    obtain ⟨h64, hrec⟩ := hsig
      (hexToBytes (keccak256OfBytes
        (utf8Encode ("\x19Ethereum Signed Message:\n".data ++
          (Nat.repr (utf8Encode msg).length).data) ++ utf8Encode msg)))
      (hexToBytes (key.drop 2))
    simpa [Wallet.sign] using sign_length_aux _ h64 hrec

/-- C7 witness: with a dummy 64-zero-byte signer, the signature string of
a concrete message has the 65-byte hex length. -/
theorem C7_personal_sign_witness :
    (Wallet.sign (fun _ _ => ⟨List.replicate 64 0, 0⟩) "0xab".data "hi".data).length =
      2 + 65 * 2 :=
  C7_personal_sign.2 (fun _ _ => ⟨List.replicate 64 0, 0⟩) "0xab".data "hi".data
    (fun _ _ => ⟨List.length_replicate 64 0, Nat.zero_lt_two⟩)

/-- C2. `Wallet.signTransaction` defaults an absent `chainId` to 1337, an
absent `gasPrice` to `'0x3B9ACA00'`, an absent `gasLimit` to 21000; and it
equals the spec-side pipeline: sign the keccak-256 of the RLP of
`[nonce, gasPrice, gasLimit, to, value, data, chainId, 0, 0]`, set
`v = recoveryId + chainId * 2 + 35`, and return the hex of the RLP of
`[nonce, gasPrice, gasLimit, to, value, data, v, r, s]`. -/
theorem C2_sign_transaction (ecdsaSign : Signer) (privateKey : List Char)
    (tx : TransactionRequest) :
    (Wallet.signTransaction ecdsaSign privateKey { tx with chainId := none } =
      Wallet.signTransaction ecdsaSign privateKey { tx with chainId := some 1337 }) ∧
    (Wallet.signTransaction ecdsaSign privateKey { tx with gasPrice := none } =
      Wallet.signTransaction ecdsaSign privateKey
        { tx with gasPrice := some (.str "0x3B9ACA00".data) }) ∧
    (Wallet.signTransaction ecdsaSign privateKey { tx with gasLimit := none } =
      Wallet.signTransaction ecdsaSign privateKey
        { tx with gasLimit := some (.num 21000) }) ∧
    (Wallet.signTransaction ecdsaSign privateKey tx =
      signTransactionSpec ecdsaSign privateKey tx) := by
  refine ⟨?_, ?_, ?_, ?_⟩
  · simp [Wallet.signTransaction, orDefaultNat]
  · simp [Wallet.signTransaction, orDefaultNum, numLikeFalsy]
  · simp [Wallet.signTransaction, orDefaultNum, numLikeFalsy]
  · simp [Wallet.signTransaction, signTransactionSpec, hexToBytes_keccakHex]

/-! ### toRlpNumber lemmas -/

theorem padEvenHex_even (l : List Char) : (padEvenHex l).length % 2 = 0 := by
  rw [padEvenHex]
  by_cases h : l.length % 2 = 1
  · rw [if_pos h]
    have hlen : ('0' :: l).length = l.length + 1 := rfl
    omega
  · rw [if_neg h]
    omega

theorem padEvenHex_append_pair (l : List Char) (a b : Char) :
    padEvenHex (l ++ [a, b]) = padEvenHex l ++ [a, b] := by
  have h2 : (l ++ [a, b]).length % 2 = l.length % 2 := by
    simp
  rw [padEvenHex, padEvenHex, h2]
  by_cases h : l.length % 2 = 1 <;> simp [h]

theorem hexPairs_append_pair : ∀ (e : List Char), e.length % 2 = 0 → ∀ a b : Char,
    hexPairsToBytes (e ++ [a, b]) =
      hexPairsToBytes e ++ [16 * hexDigitVal a + hexDigitVal b]
  | [], _, a, b => by simp [hexPairsToBytes]
  | [c], h, a, b => by simp at h
  | c1 :: c2 :: rest, h, a, b => by
    have hr : rest.length % 2 = 0 := by
      simp at h
      omega
    simp only [List.cons_append, hexPairsToBytes, List.append_eq]
    rw [hexPairs_append_pair rest hr a b]

theorem rlpHexBytes_lt256 (n : Nat) (h0 : 0 < n) (h : n < 256) :
    hexPairsToBytes (padEvenHex (natToHex n)) = [n] := by
  by_cases h16 : n < 16
  · rw [natToHex_of_lt16 n h0 h16]
    have hpe : padEvenHex [Nat.digitChar n] = ['0', Nat.digitChar n] := by
      rw [padEvenHex]
      simp
    rw [hpe, hexPairsToBytes]
    rw [hexDigitVal_digitChar n (by omega)]
    have hz : hexDigitVal '0' = 0 := by decide
    rw [hz]
    simp [hexPairsToBytes]
  · have hq0 : 0 < n / 16 := by
      have := Nat.one_le_div_iff (by norm_num : 0 < 16) |>.mpr (by omega : 16 ≤ n)
      omega
    have hqlt : n / 16 < 16 := by omega
    rw [natToHex_of_ge16 n (by omega), natToHex_of_lt16 (n / 16) hq0 hqlt]
    have hpe : padEvenHex ([Nat.digitChar (n / 16)] ++ [Nat.digitChar (n % 16)]) =
        [Nat.digitChar (n / 16), Nat.digitChar (n % 16)] := by
      rw [padEvenHex]
      simp
    rw [hpe, hexPairsToBytes]
    rw [hexDigitVal_digitChar (n / 16) hqlt,
      hexDigitVal_digitChar (n % 16) (Nat.mod_lt n (by norm_num))]
    simp [hexPairsToBytes]
    omega

theorem rlpHexBytes_ge256 (n : Nat) (h : 256 ≤ n) :
    hexPairsToBytes (padEvenHex (natToHex n)) =
      hexPairsToBytes (padEvenHex (natToHex (n / 256))) ++ [n % 256] := by
  have h16 : 16 ≤ n / 16 := Nat.le_div_iff_mul_le (by norm_num) |>.mpr (by omega)
  have h1 : natToHex n = natToHex (n / 256) ++
      [Nat.digitChar (n / 16 % 16), Nat.digitChar (n % 16)] := by
    rw [natToHex_of_ge16 n (by omega), natToHex_of_ge16 (n / 16) h16,
      Nat.div_div_eq_div_mul]
    norm_num
  rw [h1, padEvenHex_append_pair, hexPairs_append_pair _ (padEvenHex_even _)]
  congr 2
  rw [hexDigitVal_digitChar (n / 16 % 16) (Nat.mod_lt _ (by norm_num)),
    hexDigitVal_digitChar (n % 16) (Nat.mod_lt n (by norm_num))]
  omega

theorem beVal_append_single (bs : List Nat) (x : Nat) :
    beVal (bs ++ [x]) = 256 * beVal bs + x := by
  simp [beVal, List.foldl_append]

theorem rlpHexBytes_spec (n : Nat) (h0 : 0 < n) :
    beVal (hexPairsToBytes (padEvenHex (natToHex n))) = n ∧
    hexPairsToBytes (padEvenHex (natToHex n)) ≠ [] ∧
    (hexPairsToBytes (padEvenHex (natToHex n))).headD 0 ≠ 0 ∧
    ∀ b ∈ hexPairsToBytes (padEvenHex (natToHex n)), b < 256 := by
  induction n using Nat.strong_induction_on with
  | _ n ih =>
    by_cases h256 : n < 256
    · rw [rlpHexBytes_lt256 n h0 h256]
      refine ⟨by simp [beVal], by simp, by simpa using (by omega : ¬ n = 0), ?_⟩
      intro b hb
      simp at hb
      omega
    · rw [rlpHexBytes_ge256 n (by omega)]
      obtain ⟨ihv, ihne, ihhead, ihlt⟩ :=
        ih (n / 256) (Nat.div_lt_self (by omega) (by norm_num)) (by omega)
      refine ⟨?_, by simp, ?_, ?_⟩
      · rw [beVal_append_single, ihv]
        omega
      · obtain ⟨x, xs, hcons⟩ : ∃ x xs,
            hexPairsToBytes (padEvenHex (natToHex (n / 256))) = x :: xs := by
          cases hh : hexPairsToBytes (padEvenHex (natToHex (n / 256))) with
          | nil => exact absurd hh ihne
          | cons x xs => exact ⟨x, xs, rfl⟩
        rw [hcons] at ihhead ⊢
        simpa using ihhead
      · intro b hb
        rw [List.mem_append] at hb
        rcases hb with hb | hb
        · exact ihlt b hb
        · simp at hb
          omega

theorem strip0x_padEven_natToHex (m : Nat) (hm : 0 < m) :
    strip0x (padEvenHex (natToHex m)) = padEvenHex (natToHex m) := by
  obtain ⟨c, rest, hcr⟩ : ∃ c rest, natToHex m = c :: rest := by
    cases hh : natToHex m with
    | nil => exact absurd hh (natToHex_ne_nil m)
    | cons c rest => exact ⟨c, rest, rfl⟩
  have hcmem : c ∈ "0123456789abcdef".data :=
    natToHex_mem_lower m c (hcr ▸ List.mem_cons_self c rest)
  have hcne0 : c ≠ '0' := by
    have := natToHex_head_ne_zero m hm
    rw [hcr] at this
    simpa using this
  have hcnex : c ≠ 'x' := by
    intro hcx
    subst hcx
    exact absurd hcmem (by decide)
  rw [strip0x, if_neg]
  rw [padEvenHex, hcr]
  by_cases hp : (c :: rest).length % 2 = 1
  · rw [if_pos hp]
    intro hc
    have h2 : ('0' :: c :: rest).take 2 = ['0', c] := rfl
    rw [h2] at hc
    apply hcnex
    injection hc with h1 ht
    injection ht
  · rw [if_neg hp]
    intro hc
    cases rest with
    | nil => simp at hc
    | cons r rs =>
      have h2 : (c :: r :: rs).take 2 = [c, r] := rfl
      rw [h2] at hc
      apply hcne0
      injection hc

/-- C8. `toRlpNumber` maps value 0 (number, bigint, or string form) to the
empty byte string, and any positive value to its shortest big-endian byte
representation: a non-empty byte list with no leading zero byte, all bytes
below 256, whose big-endian value is the input. -/
theorem C8_to_rlp_number (v : NumLike) :
    (v.toBigInt = 0 → Wallet.toRlpNumber v = []) ∧
    (0 < v.toBigInt →
      Wallet.toRlpNumber v ≠ [] ∧
      (Wallet.toRlpNumber v).headD 0 ≠ 0 ∧
      beVal (Wallet.toRlpNumber v) = v.toBigInt.toNat ∧
      ∀ b ∈ Wallet.toRlpNumber v, b < 256) := by
  constructor
  · intro h
    rw [Wallet.toRlpNumber, if_pos h]
  · intro h
    have hm : 0 < v.toBigInt.toNat := by omega
    have hpos : Wallet.toRlpNumber v =
        hexPairsToBytes (padEvenHex (natToHex v.toBigInt.toNat)) := by
      simp only [Wallet.toRlpNumber]
      rw [if_neg (show ¬ v.toBigInt = 0 by omega), intToHex,
        if_neg (show ¬ v.toBigInt < 0 by omega)]
      rw [hexToBytes]
      rw [show (if (natToHex v.toBigInt.toNat).length % 2 = 1
        then '0' :: natToHex v.toBigInt.toNat else natToHex v.toBigInt.toNat) =
        padEvenHex (natToHex v.toBigInt.toNat) from rfl]
      rw [strip0x_padEven_natToHex _ hm]
    rw [hpos]
    obtain ⟨hval, hne, hhead, hb⟩ := rlpHexBytes_spec v.toBigInt.toNat hm
    exact ⟨hne, hhead, hval, hb⟩

/-- C8 witness: value 0 maps to the empty byte string; the hex-string
gas-price value `'0x3B9ACA00'` maps to its shortest big-endian bytes. -/
theorem C8_to_rlp_number_witness :
    Wallet.toRlpNumber (.num 0) = [] ∧
    (Wallet.toRlpNumber (.str "0x3B9ACA00".data) ≠ [] ∧
      (Wallet.toRlpNumber (.str "0x3B9ACA00".data)).headD 0 ≠ 0 ∧
      beVal (Wallet.toRlpNumber (.str "0x3B9ACA00".data)) =
        (NumLike.str "0x3B9ACA00".data).toBigInt.toNat ∧
      ∀ b ∈ Wallet.toRlpNumber (.str "0x3B9ACA00".data), b < 256) :=
  ⟨(C8_to_rlp_number (.num 0)).1 rfl,
    (C8_to_rlp_number (.str "0x3B9ACA00".data)).2 (by decide)⟩
